import Mathlib

/-!
Verification of the linkrot reference-extraction engine.

A shallow embedding of the reference extraction, classification and
collection code of the `linkrot` repository (`linkrot/extractor.py`,
`linkrot/backends.py`, `linkrot/__init__.py`), together with theorems
settling the frozen claims about it.

Text is modelled as `List Char` / `String`.  The Python regular
expressions used by the source are embedded through a small
continuation-passing backtracking matcher (`M` below): every quantifier
appearing in the source patterns is translated by a greedy (longest
first) backtracking combinator, which is exactly the Python `re`
semantics for these patterns.  Character classes such as `\s` and `\w`
are modelled by their ASCII meaning, which is what all inputs in the
repository's claims use.
-/

namespace Linkrot

/-! Section: Character predicates (ASCII models of Python `\s`, `\w`, `\d`) -/

/-- Python `\s` on ASCII: space, tab, newline, carriage return,
vertical tab, form feed. -/
def isPySpace (c : Char) : Bool :=
  c = ' ' || c = '\t' || c = '\n' || c = '\r' || c = '\x0b' || c = '\x0c'

/-- Python `\w` on ASCII: letters, digits, underscore. -/
def isWordChar (c : Char) : Bool :=
  c.isAlpha || c.isDigit || c = '_'

/-- Python `\d` on ASCII. -/
def isDigitChar (c : Char) : Bool := c.isDigit

/-- ASCII lower-casing of one character (model of `str.lower`). -/
def lowerChar (c : Char) : Char :=
  if 'A' ≤ c ∧ c ≤ 'Z' then Char.ofNat (c.toNat + 32) else c

/-- ASCII lower-casing of a string (model of `str.lower()`). -/
def pyLower (l : List Char) : List Char := l.map lowerChar

/-- Drop a trailing run of characters drawn from `set`
(model of the anchored substitution `re.sub(r'[...]+$', '', s)` and of
the right half of `str.strip(chars)`). -/
def dropTrailingIn (set : List Char) (l : List Char) : List Char :=
  ((l.reverse.dropWhile (· ∈ set)).reverse)

/-- Drop a leading run of characters drawn from `set`. -/
def dropLeadingIn (set : List Char) (l : List Char) : List Char :=
  l.dropWhile (· ∈ set)

/-- Model of Python `str.strip(chars)`: remove leading and trailing
runs of characters from `set`. -/
def pyStripChars (set : List Char) (l : List Char) : List Char :=
  dropTrailingIn set (dropLeadingIn set l)

/-- Model of Python `str.strip()` (whitespace strip). -/
def pyStripWs (l : List Char) : List Char :=
  ((l.dropWhile isPySpace).reverse.dropWhile isPySpace).reverse

/-- Deduplicate keeping the first occurrence, in discovery order.  This
models the contents of a Python `set` built by successive insertion;
the iteration order of a Python `set` is unspecified, and every claim
settled below only depends on the set's contents, not on its order. -/
def dedupAux (seen : List (List Char)) : List (List Char) → List (List Char)
  | [] => []
  | x :: xs =>
    if x ∈ seen then dedupAux seen xs else x :: dedupAux (x :: seen) xs

/-- See `dedupAux`. -/
def dedupFirst (l : List (List Char)) : List (List Char) := dedupAux [] l

/-- Python `str.split(sep)` for a one-character separator: keeps empty
segments, including a trailing one. -/
def splitOnChar (sep : Char) : List Char → List (List Char)
  | [] => [[]]
  | c :: cs =>
    match splitOnChar sep cs with
    | [] => [[]]
    | seg :: rest => if c = sep then [] :: seg :: rest else (c :: seg) :: rest

/-! Section: A backtracking matcher for the source's regular expressions

`M` is a matcher in continuation-passing style: it receives the residual
input and the capture groups collected so far, and calls the
continuation `K` on every way of matching, longest/leftmost
alternatives first, exactly as the Python `re` backtracking engine
tries them.  All star/plus bodies appearing in the source's patterns
consume at least one character, so a fuel of `input length` makes the
fuelled repetition combinators exact. -/

/-- Capture groups collected so far (in opening-parenthesis order;
no pattern in the source nests capture groups). -/
abbrev Caps := List (List Char)

/-- Continuation: residual input and captures to the final answer. -/
abbrev K := List Char → Caps → Option (List Char × Caps)

/-- A matcher: input, captures, continuation. -/
abbrev M := List Char → Caps → K → Option (List Char × Caps)

/-- Match nothing (ε). -/
def meps : M := fun l gs k => k l gs

/-- Match one character satisfying `p`. -/
def mcls (p : Char → Bool) : M := fun l gs k =>
  match l with
  | [] => none
  | c :: cs => if p c then k cs gs else none

/-- Match a case-sensitive literal. -/
def mlit (pat : String) : M := fun l gs k =>
  if pat.toList.isPrefixOf l then k (l.drop pat.toList.length) gs else none

/-- Match a case-insensitive literal (for patterns carrying the
`re.IGNORECASE` / `(?i)` flag). -/
def mlitCI (pat : String) : M := fun l gs k =>
  if pyLower pat.toList = pyLower (l.take pat.toList.length)
      ∧ pat.toList.length ≤ l.length then
    k (l.drop pat.toList.length) gs
  else none

/-- Match one character case-insensitively (for `s?` under `(?i)`). -/
def mchCI (c : Char) : M := mcls (fun x => lowerChar x = lowerChar c)

/-- Sequencing. -/
def mseq (a b : M) : M := fun l gs k => a l gs (fun l' gs' => b l' gs' k)

/-- Ordered alternation (`x|y`: left alternative first). -/
def malt (a b : M) : M := fun l gs k => (a l gs k).orElse (fun _ => b l gs k)

/-- Greedy option (`x?`: try matching first, then skipping). -/
def mopt (a : M) : M := fun l gs k => (a l gs k).orElse (fun _ => k l gs)

/-- Fuelled greedy Kleene star: try one more iteration first, then stop.
Iterations that consume no input are cut off (no source pattern has a
nullable star body, so this agrees with Python `re`). -/
def mstarFuel (a : M) : Nat → M
  | 0 => fun l gs k => k l gs
  | n + 1 => fun l gs k =>
      (a l gs (fun l' gs' =>
        if l'.length < l.length then mstarFuel a n l' gs' k else none)).orElse
        (fun _ => k l gs)

/-- Greedy `x*`. -/
def mstar (a : M) : M := fun l gs k => mstarFuel a l.length l gs k

/-- Greedy `x+`. -/
def mplus (a : M) : M := mseq a (mstar a)

/-- Greedy `x{n,}` (at least `n`, as in `[0-9]{4,}`). -/
def mrep (n : Nat) (a : M) : M :=
  match n with
  | 0 => mstar a
  | n + 1 => mseq a (mrep n a)

/-- Greedy `x{n}` (exactly `n`, as in `[a-zA-Z]{2,}` = 2 then star). -/
def mtimes (n : Nat) (a : M) : M :=
  match n with
  | 0 => meps
  | n + 1 => mseq a (mtimes n a)

/-- Capture group: records the characters consumed by `a`. -/
def mgroup (a : M) : M := fun l gs k =>
  a l gs (fun l' gs' => k l' (gs' ++ [l.take (l.length - l'.length)]))

/-- Sequencing of a list of matchers. -/
def mseqList (ms : List M) : M := ms.foldr mseq meps

/-- Ordered alternation over a list of matchers (for the TLD list). -/
def maltList (ms : List M) : M := fun l gs k =>
  match ms with
  | [] => none
  | a :: rest => (a l gs k).orElse (fun _ => maltList rest l gs k)

/-- The character of `l0` just before residual input `rest`
(`l0` is the whole subject string; positions are recovered from
lengths).  Used for `\b` and look-behinds. -/
def prevChar (l0 rest : List Char) : Option Char :=
  if rest.length < l0.length then (l0.take (l0.length - rest.length)).getLast? else none

/-- Python `\b` at the position just before `rest` within subject `l0`. -/
def atWordBoundary (l0 rest : List Char) : Bool :=
  let pw := match prevChar l0 rest with
    | none => false
    | some c => isWordChar c
  let nw := match rest with
    | [] => false
    | c :: _ => isWordChar c
  pw ≠ nw

/-- Matcher for `\b` (consumes nothing). -/
def mwb (l0 : List Char) : M := fun l gs k =>
  if atWordBoundary l0 l then k l gs else none

/-- Matcher for the look-behind `(?<![\w@])` (consumes nothing). -/
def mNotAfterWordAt (l0 : List Char) : M := fun l gs k =>
  match prevChar l0 l with
  | none => k l gs
  | some c => if isWordChar c || c = '@' then none else k l gs

/-- Run a matcher at the start of `l`, returning the consumed prefix,
the captures and the residual input. -/
def mrun (m : M) (l : List Char) : Option (List Char × Caps × List Char) :=
  match m l [] (fun rest gs => some (rest, gs)) with
  | none => none
  | some (rest, gs) => some (l.take (l.length - rest.length), gs, rest)

/-! Section: `re.findall` / `re.sub` scanning -/

/-- Model of `re.findall`: try the matcher at every position, left to right; on a
match record (matched text, captures) and continue after the match's
end (non-overlapping matches).  Every pattern in the source consumes at
least one character when it matches; an (impossible) empty match
advances by one position, as CPython does. -/
def scanall (m : M) : Nat → List Char → List (List Char × Caps)
  | 0, _ => []
  | _, [] => []
  | fuel + 1, l =>
    match mrun m l with
    | some (matched, gs, rest) =>
        if rest.length < l.length then (matched, gs) :: scanall m fuel rest
        else (matched, gs) :: scanall m fuel (l.drop 1)
    | none => scanall m fuel (l.drop 1)

/-- Model of `re.findall` over subject `l`; the matcher may consult the whole
subject (for `\b` and look-behinds). -/
def pyFindall (mk : List Char → M) (l : List Char) : List (List Char × Caps) :=
  scanall (mk l) (l.length + 1) l

/-- Model of `re.sub`: replace every non-overlapping match, scanning left to
right over the original subject, building the replacement from the
captures. -/
def scanSub (m : M) (repl : Caps → List Char) : Nat → List Char → List Char
  | 0, l => l
  | _, [] => []
  | fuel + 1, l =>
    match mrun m l with
    | some (_, gs, rest) =>
        if rest.length < l.length then repl gs ++ scanSub m repl fuel rest
        else
          repl gs ++
            (match l with
             | [] => []
             | c :: cs => c :: scanSub m repl fuel cs)
    | none =>
        match l with
        | [] => []
        | c :: cs => c :: scanSub m repl fuel cs

/-- Model of `re.sub` over subject `l`. -/
def pySub (mk : List Char → M) (repl : Caps → List Char) (l : List Char) :
    List Char :=
  scanSub (mk l) repl (l.length + 1) l

/-- First capture group of a findall hit (for the 1-group patterns). -/
def firstCap (p : List Char × Caps) : List Char := p.2.headD []

/-! Section: `linkrot/extractor.py`: COMMON_TLDS and `clean_url_text` -/

/-- The TLD alternation `COMMON_TLDS` of `extractor.py`, in source
order (regex alternation tries alternatives left to right). -/
def tldStrings : List String :=
  ["com", "net", "org", "edu", "gov", "mil", "int", "aero", "asia", "biz",
   "cat", "coop", "info", "jobs", "mobi", "museum", "name", "post", "pro",
   "tel", "travel", "xxx", "io", "ai", "co", "uk", "de", "jp", "fr", "au",
   "ca", "br", "ru", "cn", "in", "mx", "it", "es", "nl", "be", "ch", "se",
   "no", "dk", "fi", "pl", "cz", "at", "hu", "gr", "pt", "ie", "ro", "bg",
   "hr", "si", "sk", "lt", "lv", "ee", "lu", "mt", "cy", "is", "li", "ad",
   "mc", "sm", "va", "md", "me", "rs", "mk", "ba", "al", "by", "ua", "kz",
   "kg", "tj", "tm", "uz", "am", "az", "ge", "tr", "il", "lb", "sy", "jo",
   "sa", "ae", "kw", "qa", "bh", "om", "ye", "iq", "ir", "af", "pk", "bd",
   "lk", "mv", "np", "bt", "mm", "th", "la", "kh", "vn", "my", "sg", "bn",
   "id", "ph", "tw", "kr", "kp", "mn", "hk", "mo", "fm", "pw", "mh", "mp",
   "gu", "as", "vi", "pr", "tc", "vg", "ag", "dm", "gd", "kn", "lc", "vc",
   "bb", "tt", "jm", "ht", "do", "cu", "bs", "bz", "gt", "sv", "hn", "ni",
   "cr", "pa", "ve", "gy", "sr", "ec", "pe", "bo", "py", "uy", "ar", "cl",
   "fk", "gs"]

/-- Model of `(?:com|net|...)` matched case-insensitively (all its users carry
the IGNORECASE flag). -/
def mTLD : M := maltList (tldStrings.map mlitCI)

/-- Model of `[^\s]` -/
def nonSpace : Char → Bool := fun c => !(isPySpace c)

/-- Model of `[a-zA-Z0-9]` -/
def alnumChar : Char → Bool := fun c => c.isAlpha || c.isDigit

/-- Model of `clean_url_text` pattern 2:
`(https?://[^\s]+)-\s*\n\s*([a-zA-Z0-9])`, IGNORECASE, repl `\1\2`. -/
def mClean2 : M :=
  mseqList
    [mgroup (mseqList [mlitCI "http", mopt (mchCI 's'), mlit "://",
                       mplus (mcls nonSpace)]),
     mlit "-", mstar (mcls isPySpace), mlit "\n", mstar (mcls isPySpace),
     mgroup (mcls alnumChar)]

/-- Model of `clean_url_text` pattern 3:
`(https?://[^\s]*)\s*\n\s*([^\s\w][^\s]*|[0-9][^\s]*)`, IGNORECASE,
repl `\1\2`. -/
def mClean3 : M :=
  mseqList
    [mgroup (mseqList [mlitCI "http", mopt (mchCI 's'), mlit "://",
                       mstar (mcls nonSpace)]),
     mstar (mcls isPySpace), mlit "\n", mstar (mcls isPySpace),
     mgroup (malt
       (mseq (mcls (fun c => nonSpace c && !(isWordChar c))) (mstar (mcls nonSpace)))
       (mseq (mcls isDigitChar) (mstar (mcls nonSpace))))]

/-- Model of `clean_url_text` pattern 4:
`([a-zA-Z0-9-]+)\.\s*\n\s*(com|net|...)\b`, IGNORECASE, repl `\1.\2`. -/
def mClean4 (l0 : List Char) : M :=
  mseqList
    [mgroup (mplus (mcls (fun c => alnumChar c || c = '-'))),
     mlit ".", mstar (mcls isPySpace), mlit "\n", mstar (mcls isPySpace),
     mgroup mTLD, mwb l0]

/-- Model of `clean_url_text` pattern 5: `www\.\s*\n\s*([a-zA-Z0-9-]+)`,
IGNORECASE, repl `www.\1`. -/
def mClean5 : M :=
  mseqList
    [mlitCI "www.", mstar (mcls isPySpace), mlit "\n", mstar (mcls isPySpace),
     mgroup (mplus (mcls (fun c => alnumChar c || c = '-')))]

/-- Model of `clean_url_text` pattern 6:
`([a-zA-Z0-9.-]+\.[a-zA-Z]{2,})/\s*\n\s*([^\s]+)`, IGNORECASE,
repl `\1/\2`. -/
def mClean6 : M :=
  mseqList
    [mgroup (mseqList [mplus (mcls (fun c => alnumChar c || c = '.' || c = '-')),
                       mlit ".", mrep 2 (mcls Char.isAlpha)]),
     mlit "/", mstar (mcls isPySpace), mlit "\n", mstar (mcls isPySpace),
     mgroup (mplus (mcls nonSpace))]

/-- Model of `clean_url_text` pattern 7: `[ \t]+` → a single space. -/
def mClean7 : M := mplus (mcls (fun c => c = ' ' || c = '\t'))

/-- Model of `clean_url_text` pattern 8: `\n\s*\n` → `\n\n`. -/
def mClean8 : M :=
  mseqList [mlit "\n", mstar (mcls isPySpace), mlit "\n"]

/-- Replacement `\1\2`. -/
def replCat (gs : Caps) : List Char := gs.headD [] ++ (gs.drop 1).headD []

/-- Model of `extractor.clean_url_text`: the pre-cleaning pass run by every
extractor before pattern matching. -/
def cleanUrlText (l : List Char) : List Char :=
  if l = [] then l else
  let t1 := l.map (fun c => if c = '\x0c' then ' ' else c)
  let t2 := pySub (fun _ => mClean2) replCat t1
  let t3 := pySub (fun _ => mClean3) replCat t2
  let t4 := pySub mClean4
    (fun gs => gs.headD [] ++ ['.'] ++ (gs.drop 1).headD []) t3
  let t5 := pySub (fun _ => mClean5)
    (fun gs => "www.".toList ++ gs.headD []) t4
  let t6 := pySub (fun _ => mClean6)
    (fun gs => gs.headD [] ++ ['/'] ++ (gs.drop 1).headD []) t5
  let t7 := pySub (fun _ => mClean7) (fun _ => [' ']) t6
  let t8 := pySub (fun _ => mClean8) (fun _ => ['\n', '\n']) t7
  pyStripWs t8

/-! Section: `linkrot/extractor.py`: the three extractors

The extractors return Python sets.  They are modelled as duplicate-free
lists in discovery order; a Python set's iteration order is
unspecified, and every claim settled below depends only on the set's
contents (the inputs reaching the one order-sensitive consumer,
`set.pop` in `Reference.__init__`, are singletons). -/

/-- Model of `[^\s,]` -/
def arxivIdChar : Char → Bool := fun c => nonSpace c && c ≠ ','

/-- Model of `ARXIV_REGEX = arxiv:\s?([^\s,]+)` — compiled with `re.MULTILINE`
only: the literal `arxiv` is matched case-SENSITIVELY. -/
def mArxiv1 : M :=
  mseqList [mlit "arxiv:", mopt (mcls isPySpace),
            mgroup (mplus (mcls arxivIdChar))]

/-- Model of `ARXIV_REGEX2 = arxiv.org/abs/([^\s,]+)` — the unescaped `.`
matches any character except a newline; case-sensitive. -/
def mArxiv2 : M :=
  mseqList [mlit "arxiv", mcls (· ≠ '\n'), mlit "org/abs/",
            mgroup (mplus (mcls arxivIdChar))]

/-- Model of `extractor.extract_arxiv`: finds the `arxiv:` matches, then the
`arxiv.org/abs/` matches, concatenates them, strips `.` from both ends
of every hit, and returns them as a set. -/
def extractArxiv (s : String) : List String :=
  let cleaned := cleanUrlText s.toList
  let res := (pyFindall (fun _ => mArxiv1) cleaned
              ++ pyFindall (fun _ => mArxiv2) cleaned).map firstCap
  (dedupFirst (res.map (pyStripChars ['.']))).map List.asString

/-- Model of `[^\s,;)\]}>]` — the character class of the DOI capture group. -/
def doiTailChar : Char → Bool := fun c =>
  nonSpace c && !(c ∈ [',', ';', ')', ']', '\x7d', '>'])

/-- The capture group `([0-9]{2}\.[0-9]{4,}/[^\s,;)\]}>]+)` shared by
all three DOI patterns. -/
def mDoiCap : M :=
  mgroup (mseqList [mtimes 2 (mcls isDigitChar), mlit ".",
                    mrep 4 (mcls isDigitChar), mlit "/",
                    mplus (mcls doiTailChar)])

/-- Model of `DOI_REGEX`:
`(?i)(?:(?:https?://)?(?:dx\.)?doi\.org/|doi:?\s*)(cap)`. -/
def mDoi1 : M :=
  mseq
    (malt
      (mseqList [mopt (mseqList [mlitCI "http", mopt (mchCI 's'), mlit "://"]),
                 mopt (mlitCI "dx."), mlitCI "doi.org/"])
      (mseqList [mlitCI "doi", mopt (mlit ":"), mstar (mcls isPySpace)]))
    mDoiCap

/-- Model of `DOI_REGEX2`: `(?i)doi:?\s+(cap)`. -/
def mDoi2 : M :=
  mseqList [mlitCI "doi", mopt (mlit ":"), mplus (mcls isPySpace), mDoiCap]

/-- Model of `DOI_REGEX3`: `(?i)[\(\[]doi:?\s*(cap)[\)\]]`. -/
def mDoi3 : M :=
  mseqList [mcls (fun c => c = '(' || c = '['),
            mlitCI "doi", mopt (mlit ":"), mstar (mcls isPySpace),
            mDoiCap,
            mcls (fun c => c = ')' || c = ']')]

/-- The post-hoc validation `re.match(r'^10\.\d{4,}/\S+', doi)`. -/
def validDoiShape (l : List Char) : Bool :=
  match l with
  | '1' :: '0' :: '.' :: rest =>
      let ds := rest.takeWhile isDigitChar
      decide (4 ≤ ds.length) &&
        (match rest.drop ds.length with
         | '/' :: c :: _ => nonSpace c
         | _ => false)
  | _ => false

/-- The trailing-punctuation strip `doi.strip('.,;:!?')` applied to
each DOI candidate. -/
def doiStrip (l : List Char) : List Char :=
  pyStripChars ['.', ',', ';', ':', '!', '?'] l

/-- Model of `extractor.extract_doi`: empty text short-circuits to the empty
set; otherwise the three DOI patterns are matched against the cleaned
text, each candidate is punctuation-stripped and kept only if it still
matches `^10\.\d{4,}/\S+` (failures are dropped silently). -/
def extractDoi (s : String) : List String :=
  if s.toList = [] then [] else
  let cleaned := cleanUrlText s.toList
  let dois := (pyFindall (fun _ => mDoi1) cleaned
               ++ pyFindall (fun _ => mDoi2) cleaned
               ++ pyFindall (fun _ => mDoi3) cleaned).map firstCap
  let kept := dois.filterMap (fun d =>
    let d' := doiStrip d
    if d' ≠ [] ∧ validDoiShape d' = true then some d' else none)
  (dedupFirst kept).map List.asString

/-- Model of `[\w.,@?^=%&:/~+#-]` — the inner path class of `URL_REGEX`. -/
def urlPathChar : Char → Bool := fun c =>
  isWordChar c || c ∈ ['.', ',', '@', '?', '^', '=', '%', '&', ':', '/', '~', '+', '#', '-']

/-- Model of `[\w@?^=%&/~+#-]` — the final path character class of `URL_REGEX`. -/
def urlPathEndChar : Char → Bool := fun c =>
  isWordChar c || c ∈ ['@', '?', '^', '=', '%', '&', '/', '~', '+', '#', '-']

/-- Model of `(?:/(?:[\w.,@?^=%&:/~+#-]*[\w@?^=%&/~+#-])?)?` — the optional
path of both `URL_REGEX` alternatives. -/
def mUrlPath : M :=
  mopt (mseq (mlit "/")
    (mopt (mseq (mstar (mcls urlPathChar)) (mcls urlPathEndChar))))

/-- Model of `URL_REGEX` alternative 1:
`https?://(?:[-\w.])+(?::\d+)?(path)?` (IGNORECASE). -/
def mUrlAlt1 : M :=
  mseqList [mlitCI "http", mopt (mchCI 's'), mlit "://",
            mplus (mcls (fun c => c = '-' || isWordChar c || c = '.')),
            mopt (mseq (mlit ":") (mplus (mcls isDigitChar))),
            mUrlPath]

/-- Model of `URL_REGEX` alternative 2:
`(?<![\w@])(?:[-\w]+\.)+TLD(path)?`. -/
def mUrlAlt2 (l0 : List Char) : M :=
  mseqList [mNotAfterWordAt l0,
            mplus (mseq (mplus (mcls (fun c => c = '-' || isWordChar c))) (mlit ".")),
            mTLD, mUrlPath]

/-- The whole `URL_REGEX`: `\b(?:alt1|alt2)\b`. -/
def mUrl (l0 : List Char) : M :=
  mseqList [mwb l0, malt mUrlAlt1 (mUrlAlt2 l0), mwb l0]

/-- The per-URL cleanup strip set `[.,;:!?\'")\]}]+$` of
`extract_urls`. -/
def urlStripSet : List Char :=
  ['.', ',', ';', ':', '!', '?', '\'', '"', ')', ']', '\x7d']

/-- Model of `extractor.extract_urls`: match `URL_REGEX` against the cleaned
text, deduplicate, strip trailing punctuation from each hit, and keep
the hit when it is nonempty and starts with `http://`/`https://` or
contains a dot. -/
def extractUrls (s : String) : List String :=
  let cleaned := cleanUrlText s.toList
  let urls := dedupFirst ((pyFindall mUrl cleaned).map (fun p => p.1))
  let kept := urls.filterMap (fun u =>
    let u' := dropTrailingIn urlStripSet u
    if u' ≠ [] ∧ ("http://".toList.isPrefixOf u' ∨ "https://".toList.isPrefixOf u'
                   ∨ '.' ∈ u') then
      some u'
    else none)
  (dedupFirst kept).map List.asString

/-! Section: `linkrot/backends.py`: `Reference` and its classifier -/

/-- Model of `$` of an unanchored Python pattern without `re.MULTILINE`: it
matches at the end of the subject and immediately before a newline
that is the subject's last character. -/
def atDollar (rest : List Char) : Bool :=
  rest = [] || rest = ['\n']

/-- Model of `.*$`: some run of non-newline characters followed by a `$`
position; holds of `t` iff `t` has no newline, or its only newline is
its last character. -/
def dotStarDollar (t : List Char) : Bool :=
  match t.dropWhile (· ≠ '\n') with
  | [] => true
  | ['\n'] => true
  | _ => false

/-- One anchoring position of `Reference.pdf_regex =
compile(r"\.pdf(:?\?.*)?$")`: note the source's `(:?` (an optional
colon inside a plain group, not a non-capturing `(?:`), so the group is
`:` optional, then a literal `?`, then `.*`. -/
def pdfMatchAt (l : List Char) : Bool :=
  if ".pdf".toList.isPrefixOf l then
    let r := l.drop 4
    atDollar r ||
      (match r with
       | ':' :: '?' :: t => dotStarDollar t
       | '?' :: t => dotStarDollar t
       | _ => false)
  else false

/-- Model of `pdf_regex.search`: try every position. -/
def pdfSearch : List Char → Bool
  | [] => false
  | c :: cs => pdfMatchAt (c :: cs) || pdfSearch cs

/-- Python's `in` on strings: `a` occurs as a contiguous substring of
`b`. -/
def isSubstr (a : List Char) : List Char → Bool
  | [] => a.isEmpty
  | c :: cs => a.isPrefixOf (c :: cs) || isSubstr a cs

/-- A classified reference (`Reference` of `backends.py`): identifier
(`self.ref`), kind (`self.reftype`), 1-based page (`self.page`, `0` for
unknown). -/
structure Reference where
  ref : String
  reftype : String
  page : Nat
deriving DecidableEq

/-- Model of `Reference.__init__`: `.pdf` regex first (on the lower-cased
string, keeping the original as identifier), then the arXiv extractor,
then the DOI extractor, else `url`.  The source takes `set.pop()` from
the extractor's result set, an unspecified element; this embedding
takes the first discovered match (every input reaching this point in
the settled claims yields a singleton set, where the two agree). -/
def mkReference (uri : String) (page : Nat) : Reference :=
  if pdfSearch (pyLower uri.toList) then ⟨uri, "pdf", page⟩
  else
    match extractArxiv uri with
    | a :: _ => ⟨a, "arxiv", page⟩
    | [] =>
      match extractDoi uri with
      | d :: _ => ⟨d, "doi", page⟩
      | [] => ⟨uri, "url", page⟩

/-- Model of `Reference.__eq__` on two references: identifier equality. -/
def refBeq (a b : Reference) : Bool := a.ref == b.ref

/-- Model of `Reference.__hash__`: `hash(self.ref)`. -/
def refHash (r : Reference) : UInt64 := hash r.ref

/-- A Python runtime value handed to `Reference.__eq__` as its right
operand (the operand is untyped in Python). -/
inductive PyVal where
  | ref (r : Reference)
  | str (s : String)
  | int (n : Int)
  | none
deriving DecidableEq

/-- Whether a `PyVal` is a `Reference` instance. -/
def PyVal.isRef : PyVal → Bool
  | .ref _ => true
  | _ => false

/-- Model of `Reference.__eq__` as executed by Python: it first runs
`assert isinstance(other, Reference)`, so a non-Reference right operand
raises `AssertionError` instead of producing a boolean. -/
def refEqPy (a : Reference) (other : PyVal) : Except String Bool :=
  match other with
  | .ref b => .ok (a.ref == b.ref)
  | _ => .error "AssertionError"

/-- Model of `set.add` on a set of `Reference` keyed by `__eq__`/`__hash__`:
adding an element equal to a present one keeps the present one. -/
def setAdd (rs : List Reference) (r : Reference) : List Reference :=
  if rs.any (fun x => x.ref == r.ref) then rs else rs ++ [r]

/-! Section: `linkrot/backends.py`: the document reference collector

The PyMuPDF reader (`fitz`) is the external document collaborator: it
exposes per page a plain-text string and a chain of link annotations,
each with a target URI and an `is_external` flag.  Iterating the chain
can raise inside the reader; a page is modelled as its text together
with either its link list or the raised error.  (The reader's metadata
dictionary and `make_compat_str`/`chardet` decoding are external to
every claim and are not modelled.) -/

/-- One PDF link annotation as exposed by the reader. -/
structure FLink where
  uri : String
  isExternal : Bool
deriving DecidableEq

/-- One page: extracted text, and the link-annotation chain or the
error the reader raises while iterating it. -/
structure FPage where
  text : String
  links : Except String (List FLink)

/-- A document: its pages in order. -/
structure FDoc where
  pages : List FPage

/-- Model of `PyMuPDFBackend.resolve_PDFObjRef` on a string URI: `mailto:` URIs
yield `None` (the method falls through and returns nothing), any other
string becomes a classified `Reference` at the current page. -/
def resolvePDFObjRef (uri : String) (curpage : Nat) : Option Reference :=
  if "mailto:".toList.isPrefixOf uri.toList then none
  else some (mkReference uri curpage)

/-- The body of the link-annotation loop for one link: external links
are resolved, their URI is appended to `foundLinks`, and a resolved
`Reference` is added to the result set. -/
def linkStep (curpage : Nat) (st : List Reference × List String) (lk : FLink) :
    List Reference × List String :=
  if lk.isExternal then
    let r? := resolvePDFObjRef lk.uri curpage
    let found := st.2 ++ [lk.uri]
    match r? with
    | some r => (setAdd st.1 r, found)
    | Option.none => (st.1, found)
  else st

/-- The page loop of `PyMuPDFBackend.__init__`: accumulate
`content += page.get_text() + '\x0c'`, count pages, and run the
link-annotation loop.  The `try`/`except` around that loop is commented
out in the source, so a reader error propagates and aborts the whole
constructor. -/
def pagesPass :
    List FPage → Nat → List Char → List Reference → List String →
    Except String (List Char × Nat × List Reference × List String)
  | [], cur, content, refs, found => .ok (content, cur, refs, found)
  | p :: ps, cur, content, refs, found =>
    let content' := content ++ p.text.toList ++ ['\x0c']
    let cur' := cur + 1
    match p.links with
    | .error e => .error e
    | .ok lks =>
      let st := lks.foldl (linkStep cur') (refs, found)
      pagesPass ps cur' content' st.1 st.2

/-- The body of the text pass for one candidate URL of a page: skip it
when it is a substring of a URI already in `foundLinks`, otherwise
classify-and-add it and record it in `foundLinks`. -/
def handleUrl (pageno : Nat) (st : List Reference × List String) (url : String) :
    List Reference × List String :=
  if st.2.any (fun f => isSubstr url.toList f.toList) then st
  else (setAdd st.1 (mkReference url pageno), st.2 ++ [url])

/-- Unconditional classify-and-add of a text-extracted arXiv/DOI hit. -/
def addPlain (pageno : Nat) (refs : List Reference) (idStr : String) :
    List Reference :=
  setAdd refs (mkReference idStr pageno)

/-- The text pass of `PyMuPDFBackend.__init__` over the per-page
segments of `self.text.split('\x0c')`, numbered from 1: URLs with the
suppression rule, then arXiv ids and DOIs unconditionally. -/
def textPass (pageno : Nat) :
    List String → List Reference × List String → List Reference × List String
  | [], st => st
  | seg :: rest, st =>
    let st1 := (extractUrls seg).foldl (handleUrl pageno) st
    let refs2 := (extractArxiv seg).foldl (addPlain pageno) st1.1
    let refs3 := (extractDoi seg).foldl (addPlain pageno) refs2
    textPass (pageno + 1) rest (refs3, st1.2)

/-- The result state of `PyMuPDFBackend.__init__`. -/
structure CollectSt where
  references : List Reference
  foundLinks : List String
  text : String
  pagesCount : Nat
deriving DecidableEq

/-- Model of `PyMuPDFBackend.__init__` (reference collection): the page loop,
then the text pass over the form-feed-separated page segments. -/
def collectRefs (doc : FDoc) : Except String CollectSt :=
  match pagesPass doc.pages 0 [] [] [] with
  | .error e => .error e
  | .ok (content, cnt, refs, found) =>
    let segs := (splitOnChar '\x0c' content).map List.asString
    let st := textPass 1 segs (refs, found)
    .ok ⟨st.1, st.2, content.asString, cnt⟩

/-- The classified error kinds of the document facade
(`linkrot/exceptions.py` defines plain exception classes; the facade in
`linkrot/__init__.py` raises them). -/
inductive LinkrotError where
  | fileNotFound (msg : String)
  | downloadError (msg : String)
  | pdfInvalid (msg : String)
deriving DecidableEq

/-- The backend-construction step of `linkrot.__init__`: any exception
escaping `PyMuPDFBackend(...)` is converted into
`PDFInvalidError("Invalid PDF (...)")` and surfaced to the caller. -/
def linkrotOpenDoc (doc : FDoc) : Except LinkrotError CollectSt :=
  match collectRefs doc with
  | .ok st => .ok st
  | .error e => .error (.pdfInvalid ("Invalid PDF (" ++ e ++ ")"))

/-! Section: `ReaderBackend.metadata_cleanup` -/

/-- A metadata value as handled by `metadata_key_cleanup`: a string, a
list/tuple, or a nested dictionary (modelled as an association list;
Python dict keys are unique and ordered by insertion). -/
inductive MetaVal where
  | str (s : String)
  | list (items : List MetaVal)
  | dict (entries : List (String × MetaVal))

/-- Python truthiness of a metadata value (the `elif item:` test). -/
def MetaVal.truthy : MetaVal → Bool
  | .str s => !s.isEmpty
  | .list xs => !xs.isEmpty
  | .dict es => !es.isEmpty

/-- Python `str.strip()` on a `String`. -/
def pyStripStr (s : String) : String :=
  (pyStripWs s.toList).asString

/-- The per-item branch of the list case of `metadata_key_cleanup`:
a string item is kept (stripped) iff its strip is nonempty; any other
item is kept unchanged iff it is truthy. -/
def cleanItem : MetaVal → Option MetaVal
  | .str s =>
    let t := pyStripStr s
    if t.isEmpty then none else some (.str t)
  | v => if v.truthy then some v else none

mutual

/-- Model of `metadata_key_cleanup(d, k)` as a function of the value `d[k]`:
`none` means the key is deleted.  Strings are stripped and dropped when
empty; lists are filtered item-wise and dropped when the result is
empty; dictionaries are cleaned recursively entry-wise and always
kept. -/
def cleanKey : MetaVal → Option MetaVal
  | .str s =>
    let t := pyStripStr s
    if t.isEmpty then none else some (.str t)
  | .list xs =>
    let ys := xs.filterMap cleanItem
    if ys.isEmpty then none else some (.list ys)
  | .dict es => some (.dict (cleanEntries es))

/-- Model of `metadata_cleanup`: clean every entry of a dictionary, deleting the
keys whose cleanup returns nothing. -/
def cleanEntries : List (String × MetaVal) → List (String × MetaVal)
  | [] => []
  | (k, v) :: rest =>
    match cleanKey v with
    | none => cleanEntries rest
    | some w => (k, w) :: cleanEntries rest

end

/-! Section: The bounded worker pool (`linkrot/threadpool.py`)

Modelled from the spec: the module `linkrot/threadpool.py` itself is
not under `src/` — only its tests (`tests/test_threadpool.py`) and its
callers (`downloader.py`, `archive.py`) are.  Per spec §4.4 a pool of
persistent workers drains a shared task queue; a task whose callable
raises has the exception caught and logged inside the worker, the
worker continues with the next task, nothing propagates to the
submitter, and `wait_completion()` returns once every submitted task
has been executed.  The drain of the queue is modelled sequentially:
each submitted task either succeeds or raises (`Except`), and the log
collects the caught exceptions. -/

/-- A submitted task: executing the callable with its arguments either
returns (unit) or raises the recorded exception. -/
abbrev PoolTask := Except String Unit

/-- The observable outcome of submitting a batch of tasks and calling
`wait_completion()`: how many tasks were executed, and the exceptions
that were caught and logged inside the workers. -/
structure PoolOutcome where
  executed : Nat
  logged : List String
deriving DecidableEq

/-- One worker step: execute the task; catch-and-log an exception and
continue.  The whole drain is a total function — `wait_completion()`
returns and no task exception reaches the caller. -/
def runPool : List PoolTask → PoolOutcome
  | [] => ⟨0, []⟩
  | t :: ts =>
    let rest := runPool ts
    match t with
    | .ok _ => ⟨rest.executed + 1, rest.logged⟩
    | .error e => ⟨rest.executed + 1, e :: rest.logged⟩

/-- Whether a task raises. -/
def taskRaises : PoolTask → Bool
  | .ok _ => false
  | .error _ => true

/-! Section: Concrete documents used by the claims -/

/-- The end-to-end scenario document: 3 pages; page 1 carries one
external link annotation `https://a.com/doc.pdf`, page 2's text
contains `See DOI: 10.1000/182`, page 3's text contains
`arxiv:9999.0001`. -/
def docEndToEnd : FDoc :=
  ⟨[⟨"", .ok [⟨"https://a.com/doc.pdf", true⟩]⟩,
    ⟨"See DOI: 10.1000/182", .ok []⟩,
    ⟨"arxiv:9999.0001", .ok []⟩]⟩

/-- The suppression-rule document: one page whose link-annotation list
is `["http://x.com/p.pdf"]` and whose text contains the same literal
URL. -/
def docSuppression : FDoc :=
  ⟨[⟨"See http://x.com/p.pdf here", .ok [⟨"http://x.com/p.pdf", true⟩]⟩]⟩

/-- A document whose reader raises while iterating the link
annotations of page 2, after page 1 contributed a reference. -/
def docPageError : FDoc :=
  ⟨[⟨"", .ok [⟨"https://a.com/doc.pdf", true⟩]⟩,
    ⟨"", .error "boom"⟩]⟩

/-! Section: Helper lemmas -/

theorem mem_dedupAux (l : List (List Char)) :
    ∀ seen x, x ∈ dedupAux seen l ↔ (x ∈ l ∧ x ∉ seen) := by
  induction l with
  | nil => intro seen x; simp [dedupAux]
  | cons y ys ih =>
    intro seen x
    by_cases hy : y ∈ seen
    · simp only [dedupAux, if_pos hy, ih, List.mem_cons]
      constructor
      · rintro ⟨hx, hns⟩; exact ⟨Or.inr hx, hns⟩
      · rintro ⟨rfl | hx, hns⟩
        · exact absurd hy hns
        · exact ⟨hx, hns⟩
    · simp only [dedupAux, if_neg hy, List.mem_cons, ih]
      constructor
      · rintro (rfl | ⟨hx, hns⟩)
        · exact ⟨Or.inl rfl, hy⟩
        · exact ⟨Or.inr hx, fun hxs => hns (Or.inr hxs)⟩
      · rintro ⟨rfl | hx, hns⟩
        · exact Or.inl rfl
        · by_cases hxy : x = y
          · exact Or.inl hxy
          · exact Or.inr ⟨hx, fun h => h.elim hxy hns⟩

theorem mem_dedupFirst {l : List (List Char)} {x : List Char} :
    x ∈ dedupFirst l ↔ x ∈ l := by
  simp [dedupFirst, mem_dedupAux]

theorem dropWhile_dropWhile (p : Char → Bool) (l : List Char) :
    (l.dropWhile p).dropWhile p = l.dropWhile p := by
  induction l with
  | nil => rfl
  | cons c cs ih =>
    by_cases h : p c
    · simp [List.dropWhile_cons, h, ih]
    · simp [List.dropWhile_cons, h]

theorem dropWhile_head_false (p : Char → Bool) (c : Char) (x : List Char)
    (h : (c :: x).dropWhile p = c :: x) : p c = false := by
  by_cases hc : p c
  · rw [List.dropWhile_cons, if_pos hc] at h
    have hl := congrArg List.length h
    have hle : (x.dropWhile p).length ≤ x.length :=
      (List.dropWhile_sublist p).length_le
    simp at hl
    omega
  · exact eq_false_of_ne_true (by simpa using hc)

theorem dropWhile_of_prefix_self (p : Char → Bool) (r m : List Char)
    (hm : m.dropWhile p = m) (hpre : r <+: m) : r.dropWhile p = r := by
  cases r with
  | nil => rfl
  | cons c cs =>
    obtain ⟨t, ht⟩ := hpre
    have hc : p c = false := by
      have : m.dropWhile p = m := hm
      rw [← ht] at this
      exact dropWhile_head_false p c (cs ++ t) (by simpa using this)
    simp [List.dropWhile_cons, hc]

theorem pyStripWs_take_pre (m : List Char) :
    (m.reverse.dropWhile isPySpace).reverse <+: m := by
  have hsuf : m.reverse.dropWhile isPySpace <:+ m.reverse :=
    List.dropWhile_suffix isPySpace
  have h2 : ((m.reverse.dropWhile isPySpace).reverse).reverse <:+ m.reverse := by
    simpa using hsuf
  exact List.reverse_suffix.mp h2

theorem pyStripWs_idem (l : List Char) : pyStripWs (pyStripWs l) = pyStripWs l := by
  unfold pyStripWs
  set m := l.dropWhile isPySpace with hm
  have hmm : m.dropWhile isPySpace = m := by
    rw [hm]; exact dropWhile_dropWhile isPySpace l
  have hF1 : ((m.reverse.dropWhile isPySpace).reverse).dropWhile isPySpace
      = (m.reverse.dropWhile isPySpace).reverse :=
    dropWhile_of_prefix_self isPySpace _ m hmm (pyStripWs_take_pre m)
  rw [hF1]
  rw [List.reverse_reverse, dropWhile_dropWhile]

theorem pyStripStr_idem (s : String) : pyStripStr (pyStripStr s) = pyStripStr s := by
  show (pyStripWs (pyStripWs s.toList)).asString = (pyStripWs s.toList).asString
  rw [pyStripWs_idem]

theorem filterMap_id_of_mem {α} (f : α → Option α) :
    ∀ l : List α, (∀ y ∈ l, f y = some y) → l.filterMap f = l := by
  intro l
  induction l with
  | nil => intro _; rfl
  | cons a t ih =>
    intro h
    rw [List.filterMap_cons, h a (List.mem_cons_self a t),
      ih (fun y hy => h y (List.mem_cons_of_mem a hy))]

theorem cleanItem_idem (x y : MetaVal) (h : cleanItem x = some y) :
    cleanItem y = some y := by
  cases x with
  | str s =>
    simp only [cleanItem] at h
    split at h
    · exact Option.noConfusion h
    · rename_i hne
      cases h
      simp only [cleanItem, pyStripStr_idem]
      rw [if_neg hne]
  | list xs =>
    simp only [cleanItem, MetaVal.truthy] at h
    split at h
    · rename_i ht
      cases h
      simp only [cleanItem, MetaVal.truthy]
      rw [if_pos ht]
    · exact Option.noConfusion h
  | dict es =>
    simp only [cleanItem, MetaVal.truthy] at h
    split at h
    · rename_i ht
      cases h
      simp only [cleanItem, MetaVal.truthy]
      rw [if_pos ht]
    · exact Option.noConfusion h

mutual

theorem cleanKey_idem : ∀ v w : MetaVal, cleanKey v = some w → cleanKey w = some w
  | .str s, w, h => by
    simp only [cleanKey] at h
    split at h
    · exact Option.noConfusion h
    · rename_i hne
      cases h
      simp only [cleanKey, pyStripStr_idem]
      rw [if_neg hne]
  | .list xs, w, h => by
    simp only [cleanKey] at h
    split at h
    · exact Option.noConfusion h
    · rename_i hne
      cases h
      have hself : (xs.filterMap cleanItem).filterMap cleanItem
          = xs.filterMap cleanItem := by
        refine filterMap_id_of_mem cleanItem _ (fun y hy => ?_)
        obtain ⟨x, -, hx⟩ := List.mem_filterMap.mp hy
        exact cleanItem_idem x y hx
      simp only [cleanKey, hself]
      rw [if_neg hne]
  | .dict es, w, h => by
    simp only [cleanKey] at h
    cases h
    simp only [cleanKey, cleanEntries_idem es]

theorem cleanEntries_idem :
    ∀ es : List (String × MetaVal), cleanEntries (cleanEntries es) = cleanEntries es
  | [] => rfl
  | (k, v) :: rest => by
    cases hcv : cleanKey v with
    | none => simp [cleanEntries, hcv, cleanEntries_idem rest]
    | some w =>
      have hw := cleanKey_idem v w hcv
      simp [cleanEntries, hcv, hw, cleanEntries_idem rest]

end

/-! Section: The claims -/

/-- C1 (counterexample): on the 3-page end-to-end document the
collector's reference set has kinds `pdf`, `url`, `url` — not `pdf`,
`doi`, `arxiv`: the text-extracted bare identifiers are re-classified
by `Reference.__init__`, whose extractors require the `doi:`/`arxiv:`
prefix that extraction already stripped, so they fall through to
`url`. -/
theorem c1_counterexample :
    (collectRefs docEndToEnd).toOption.map
        (fun st => st.references.map (fun r => r.reftype))
      = some ["pdf", "url", "url"] := by
  decide

/-- C1 (amended): the collector produces exactly 3 references with
identifiers `https://a.com/doc.pdf`, `10.1000/182`, `9999.0001` on
pages 1, 2, 3 respectively; the link-annotation reference has kind
`pdf`, while the text-extracted DOI and arXiv references are
re-classified from the bare identifier and get kind `url`. -/
theorem c1_amended :
    (collectRefs docEndToEnd).toOption.map
        (fun st => (st.references.map (fun r => (r.ref, r.reftype, r.page)),
                    st.pagesCount))
      = some ([("https://a.com/doc.pdf", "pdf", 1),
               ("10.1000/182", "url", 2),
               ("9999.0001", "url", 3)], 3) := by
  decide

/-- C3: during the text pass a candidate URL that is a substring of a
URI already recorded in the seen-via-annotation list is skipped, and an
accepted candidate is itself appended to that list; consequently the
one-page document whose annotation list is `["http://x.com/p.pdf"]` and
whose text contains that literal URL yields exactly one reference. -/
theorem c3_suppression :
    (∀ (pageno : Nat) (st : List Reference × List String) (url : String),
        (st.2.any (fun f => isSubstr url.toList f.toList) = true →
          handleUrl pageno st url = st)
        ∧ (st.2.any (fun f => isSubstr url.toList f.toList) = false →
          handleUrl pageno st url
            = (setAdd st.1 (mkReference url pageno), st.2 ++ [url])))
    ∧ (collectRefs docSuppression).toOption.map
        (fun st => st.references.map (fun r => (r.ref, r.reftype, r.page)))
      = some [("http://x.com/p.pdf", "pdf", 1)] := by
  refine ⟨fun pageno st url => ⟨fun h => ?_, fun h => ?_⟩, by decide⟩
  · unfold handleUrl
    rw [if_pos h]
  · unfold handleUrl
    rw [if_neg (by simpa using h)]

/-- C3 (witness): the suppression step applied to concrete states. -/
theorem c3_suppression_witness :
    handleUrl 1 ([], ["http://x.com/p.pdf"]) "x.com/p" = ([], ["http://x.com/p.pdf"])
    ∧ handleUrl 2 ([], []) "http://y.org"
        = ([mkReference "http://y.org" 2], ["http://y.org"]) :=
  ⟨(c3_suppression.1 1 ([], ["http://x.com/p.pdf"]) "x.com/p").1 (by decide),
   (c3_suppression.1 2 ([], []) "http://y.org").2 (by decide)⟩

/-- The page loop propagates a reader error raised on any page whose
predecessors iterated cleanly. -/
theorem pagesPass_error (e : String) (p : FPage) (hp : p.links = .error e) :
    ∀ (pre post : List FPage) (cur : Nat) (content : List Char)
      (refs : List Reference) (found : List String),
      (∀ q ∈ pre, ∃ ls, q.links = Except.ok ls) →
      pagesPass (pre ++ p :: post) cur content refs found = .error e := by
  intro pre
  induction pre with
  | nil => intro post cur content refs found _; simp [pagesPass, hp]
  | cons q qs ih =>
    intro post cur content refs found hok
    obtain ⟨ls, hq⟩ := hok q (List.mem_cons_self q qs)
    simp only [List.cons_append, pagesPass, hq]
    exact ih post _ _ _ _ (fun r hr => hok r (List.mem_cons_of_mem q hr))

/-- C4 (counterexample): on a document whose reader raises while
iterating the link annotations of page 2, the whole document
construction fails with a document-level invalid-PDF error — the
references collected from page 1 are not retained and the error is
surfaced to the caller of the facade (the `try`/`except` around the
link loop is commented out in the source). -/
theorem c4_counterexample :
    linkrotOpenDoc docPageError
      = .error (.pdfInvalid "Invalid PDF (boom)") := by
  rfl

/-- C4 (amended): if the reader raises while iterating link
annotations on any page (all earlier pages iterating cleanly), the
exception propagates out of the collector and the facade surfaces it as
a document-level `PDFInvalidError`; no references are returned. -/
theorem c4_amended :
    ∀ (doc : FDoc) (pre post : List FPage) (p : FPage) (e : String),
      doc.pages = pre ++ p :: post →
      p.links = .error e →
      (∀ q ∈ pre, ∃ ls, q.links = Except.ok ls) →
      linkrotOpenDoc doc
        = .error (.pdfInvalid ("Invalid PDF (" ++ e ++ ")")) := by
  intro doc pre post p e hdoc hp hok
  unfold linkrotOpenDoc collectRefs
  rw [hdoc, pagesPass_error e p hp pre post 0 [] [] [] hok]

/-- C4 (witness): the amended theorem applied to the concrete
two-page document. -/
theorem c4_amended_witness :
    linkrotOpenDoc docPageError
      = .error (.pdfInvalid "Invalid PDF (boom)") := by
  refine c4_amended docPageError [⟨"", .ok [⟨"https://a.com/doc.pdf", true⟩]⟩]
    [] ⟨"", .error "boom"⟩ "boom" rfl rfl ?_
  intro q hq
  rw [List.mem_singleton] at hq
  subst hq
  exact ⟨_, rfl⟩

/-- C10: `metadata_cleanup` is idempotent on metadata mappings of
strings, lists and nested dictionaries: one pass leaves no empty-string
values, empty lists or prunable entries behind, so a second pass
changes nothing. -/
theorem c10_metadata_cleanup_idempotent :
    ∀ metadata : List (String × MetaVal),
      cleanEntries (cleanEntries metadata) = cleanEntries metadata :=
  fun es => cleanEntries_idem es

/-- C5 (counterexample): `extract_arxiv` is not case-insensitive on the
literal `arxiv` — `ARXIV_REGEX`/`ARXIV_REGEX2` are compiled with
`re.MULTILINE` only, so the upper-case spellings of the surface form
`arxiv:<id>` match nothing while the lower-case spelling matches. -/
theorem c5_counterexample :
    extractArxiv "ARXIV:123" = [] ∧ extractArxiv "ArXiv:123" = []
      ∧ extractArxiv "arxiv:123" = ["123"] :=
  ⟨by decide, by decide, by decide⟩

/-- C5 (amended): `extract_arxiv` matches the two surface forms
`arxiv:<id>` (colon, optional whitespace) and `arxiv.org/abs/<id>`
case-SENSITIVELY on the literal `arxiv`, unions the two match sets and
strips leading/trailing periods from each match, preserving a trailing
version suffix verbatim; the example text yields a set containing
`123` and `876`. -/
theorem c5_amended :
    (∀ s d : String,
        d ∈ extractArxiv s ↔
          ∃ m ∈ (pyFindall (fun _ => mArxiv1) (cleanUrlText s.toList)
                  ++ pyFindall (fun _ => mArxiv2) (cleanUrlText s.toList)).map firstCap,
            d = (pyStripChars ['.'] m).asString)
    ∧ "123" ∈ extractArxiv "arxiv:123 . arxiv: 345 455 http://arxiv.org/abs/876"
    ∧ "876" ∈ extractArxiv "arxiv:123 . arxiv: 345 455 http://arxiv.org/abs/876"
    ∧ extractArxiv "arxiv:1234.5678v2." = ["1234.5678v2"] := by
  refine ⟨fun s d => ?_, by decide, by decide, by decide⟩
  simp only [extractArxiv, List.mem_map, mem_dedupFirst]
  constructor
  · rintro ⟨y, ⟨a, ha, rfl⟩, rfl⟩
    exact ⟨a, ha, rfl⟩
  · rintro ⟨m, hm, rfl⟩
    exact ⟨pyStripChars ['.'] m, ⟨m, hm, rfl⟩, rfl⟩

/-- C6: every string returned by `extract_doi` passes the post-hoc
validation `^10\.\d{4,}/\S+` (candidates failing it are dropped by a
total function — silently, not as an error), and the three spec
examples behave as stated. -/
theorem doiKeep_sound (x y : List Char)
    (h : (if doiStrip x ≠ [] ∧ validDoiShape (doiStrip x) = true
          then some (doiStrip x) else none) = some y) :
    validDoiShape y = true := by
  split at h
  · rename_i hc
    cases h
    exact hc.2
  · exact Option.noConfusion h

theorem c6_doi_validation :
    (∀ s : String, (extractDoi s).all (fun d => validDoiShape d.toList) = true)
    ∧ extractDoi "DOI: 10.1000/182" = ["10.1000/182"]
    ∧ extractDoi "doi:10.1038/nature12373" = ["10.1038/nature12373"]
    ∧ extractDoi "Version 10.1000 of the software" = [] := by
  refine ⟨fun s => ?_, by decide, by decide, by decide⟩
  rw [List.all_eq_true]
  intro d hd
  unfold extractDoi at hd
  split at hd
  · exact absurd hd (List.not_mem_nil d)
  · simp only [List.mem_map, mem_dedupFirst, List.mem_filterMap] at hd
    obtain ⟨y, ⟨x, -, hx⟩, rfl⟩ := hd
    exact doiKeep_sound x y (by simpa using hx)

/-- C8 (modelled from the spec; `linkrot/threadpool.py` is not under
`src/`): draining the task queue executes every submitted task exactly
once; a raising task is caught and logged inside the worker and the
drain continues, so the count of executed tasks is the full submission
count, the log collects exactly the raising tasks, and the drain — the
model of `wait_completion()` returning — is a total function whose
result type carries no exception. -/
theorem c8_pool_exception_handling :
    ∀ ts : List PoolTask,
      (runPool ts).executed = ts.length
      ∧ (runPool ts).logged.length = ts.countP taskRaises := by
  intro ts
  induction ts with
  | nil => exact ⟨rfl, rfl⟩
  | cons t ts ih =>
    cases t with
    | ok u => simpa [runPool, taskRaises, List.countP_cons] using ih
    | error e => simpa [runPool, taskRaises, List.countP_cons] using ih

/-- C7 (counterexample): two `Reference` constructions from different
strings can be equal — classification canonicalizes both `arxiv:123`
and `arxiv: 123` to the identifier `123`, and `__eq__`/`__hash__`
depend only on the identifier. -/
theorem c7_counterexample :
    refBeq (mkReference "arxiv:123" 0) (mkReference "arxiv: 123" 0) = true
    ∧ ("arxiv:123" : String) ≠ "arxiv: 123"
    ∧ refHash (mkReference "arxiv:123" 0) = refHash (mkReference "arxiv: 123" 0) := by
  refine ⟨by decide, by decide, ?_⟩
  have h : (mkReference "arxiv:123" 0).ref = (mkReference "arxiv: 123" 0).ref := by
    decide
  exact congrArg hash h

/-- C7 (amended): `Reference` equality holds iff the identifiers are
equal and the hash is derived solely from the identifier, so a set of
references deduplicates by identifier; two constructions from the
identical string always yield the same identifier (hence equal,
same-hash objects), but constructions from different strings may also
be equal when classification canonicalizes them to the same
identifier. -/
theorem c7_amended :
    (∀ a b : Reference, refBeq a b = true ↔ a.ref = b.ref)
    ∧ (∀ r : Reference, refHash r = hash r.ref)
    ∧ (∀ (s : String) (p q : Nat), (mkReference s p).ref = (mkReference s q).ref)
    ∧ (∀ (rs : List Reference) (r : Reference),
        (rs.any (fun x => x.ref == r.ref) = true → setAdd rs r = rs)
        ∧ (rs.any (fun x => x.ref == r.ref) = false → setAdd rs r = rs ++ [r])) := by
  refine ⟨fun a b => ?_, fun r => rfl, fun s p q => ?_, fun rs r => ⟨fun h => ?_, fun h => ?_⟩⟩
  · simp [refBeq]
  · cases h1 : pdfSearch (pyLower s.toList) <;>
      cases h2 : extractArxiv s <;>
      cases h3 : extractDoi s <;>
      simp [mkReference, h1, h2, h3] <;>
      split <;> rfl
  · simp [setAdd, h]
  · simp [setAdd, h]

/-- C7 (witness): the amended theorem applied to concrete sets. -/
theorem c7_amended_witness :
    setAdd [⟨"a", "url", 0⟩] ⟨"a", "url", 1⟩ = [⟨"a", "url", 0⟩]
    ∧ setAdd [⟨"a", "url", 0⟩] ⟨"b", "url", 1⟩
        = [⟨"a", "url", 0⟩, ⟨"b", "url", 1⟩] :=
  ⟨(c7_amended.2.2.2 [⟨"a", "url", 0⟩] ⟨"a", "url", 1⟩).1 (by decide),
   (c7_amended.2.2.2 [⟨"a", "url", 0⟩] ⟨"b", "url", 1⟩).2 (by decide)⟩

/-- A position match anywhere in the subject makes `search` succeed. -/
theorem pdfSearch_of_suffix :
    ∀ (l m : List Char), m <:+ l → pdfMatchAt m = true → pdfSearch l = true := by
  intro l
  induction l with
  | nil =>
    intro m hm h
    rw [List.suffix_nil] at hm
    subst hm
    exact absurd h (by decide)
  | cons c cs ih =>
    intro m hm h
    rcases List.suffix_cons_iff.mp hm with rfl | hm'
    · simp [pdfSearch, h]
    · simp [pdfSearch, ih m hm' h]

/-- The pattern `.*$` matches any newline-free remainder. -/
theorem noNl_dotStarDollar (q : List Char) (hq : ∀ c ∈ q, c ≠ '\n') :
    dotStarDollar q = true := by
  unfold dotStarDollar
  have hnil : q.dropWhile (fun c => c ≠ '\n') = [] := by
    rw [List.dropWhile_eq_nil_iff]
    intro x hx
    simpa using hq x hx
  rw [hnil]

/-- The pdf pattern fires on `.pdf?` followed by any newline-free
query string reaching the end of the subject. -/
theorem pdfMatchAt_query (q : List Char) (hq : ∀ c ∈ q, c ≠ '\n') :
    pdfMatchAt ('.' :: 'p' :: 'd' :: 'f' :: '?' :: q) = true := by
  unfold pdfMatchAt
  rw [if_pos (by rfl)]
  show (atDollar ('?' :: q) || dotStarDollar q) = true
  rw [noNl_dotStarDollar q hq, Bool.or_true]

/-- C2 (counterexample): `pdf_regex = \.pdf(:?\?.*)?$` also fires when
the lower-cased string does not end in `.pdf` and contains no `?` at
all — Python's `$` matches before a trailing newline — so
`http://e.com/a.pdf\n` classifies as `pdf` where the claim's rule
order would classify it as `url`. -/
theorem c2_counterexample :
    (mkReference "http://e.com/a.pdf\n" 0).reftype = "pdf"
    ∧ ".pdf".toList.isSuffixOf (pyLower "http://e.com/a.pdf\n".toList) = false
    ∧ "http://e.com/a.pdf\n".toList.all (fun c => c ≠ '?') = true :=
  ⟨by decide, by decide, by decide⟩

/-- C2 (amended): classification applies the precedence
pdf > arxiv > doi > url with first match winning, where rule 1's
trigger is exactly `pdf_regex.search` on the lower-cased string: it
fires on every string ending in `.pdf` and on every string ending in
`.pdf?query` (newline-free query) — keeping the original string as
identifier even when it contains arXiv- or DOI-shaped substrings — but
it also tolerates an optional `:` before the `?` (the source's `(:?`
group) and a single trailing newline (Python `$`), so "ends in `.pdf`
optionally followed by a query string" understates it; only when the
regex does not fire are the arXiv matcher, then the DOI matcher, then
the default `url` kind tried. -/
theorem c2_amended :
    (∀ (uri : String) (page : Nat),
        (pdfSearch (pyLower uri.toList) = true →
          mkReference uri page = ⟨uri, "pdf", page⟩)
        ∧ (pdfSearch (pyLower uri.toList) = false →
            mkReference uri page =
              (match extractArxiv uri with
               | a :: _ => ⟨a, "arxiv", page⟩
               | [] =>
                 match extractDoi uri with
                 | d :: _ => ⟨d, "doi", page⟩
                 | [] => ⟨uri, "url", page⟩)))
    ∧ (∀ l : List Char, ".pdf".toList <:+ l → pdfSearch l = true)
    ∧ (∀ (l q : List Char), (∀ c ∈ q, c ≠ '\n') →
        ('.' :: 'p' :: 'd' :: 'f' :: '?' :: q) <:+ l → pdfSearch l = true) := by
  refine ⟨fun uri page => ⟨fun h => ?_, fun h => ?_⟩,
    fun l hsuf => pdfSearch_of_suffix l _ hsuf (by decide),
    fun l q hq hsuf => pdfSearch_of_suffix l _ hsuf (pdfMatchAt_query q hq)⟩
  · unfold mkReference
    rw [if_pos h]
  · unfold mkReference
    rw [if_neg (by simp only [Bool.not_eq_true]; exact h)]

/-- C2 (witness): the amended theorem applied at concrete strings. -/
theorem c2_amended_witness :
    mkReference "http://a.com/x.pdf" 1 = ⟨"http://a.com/x.pdf", "pdf", 1⟩
    ∧ mkReference "https://e.org/paper" 2 = ⟨"https://e.org/paper", "url", 2⟩
    ∧ pdfSearch "x.pdf".toList = true
    ∧ pdfSearch "a.pdf?dl=1".toList = true :=
  ⟨(c2_amended.1 "http://a.com/x.pdf" 1).1 (by decide),
   (c2_amended.1 "https://e.org/paper" 2).2 (by decide),
   c2_amended.2.1 "x.pdf".toList ⟨['x'], rfl⟩,
   c2_amended.2.2 "a.pdf?dl=1".toList ['d', 'l', '=', '1'] (by decide) ⟨['a'], rfl⟩⟩

/-- C9: `Reference.__eq__` first asserts that the right operand is a
`Reference`; on any other runtime value (for example a plain string) it
raises `AssertionError` instead of returning a boolean, and on a
`Reference` it returns identifier equality. -/
theorem c9_eq_requires_reference :
    ∀ r : Reference,
      (∀ v : PyVal, (refEqPy r v).isOk = v.isRef)
      ∧ (∀ s : String, refEqPy r (PyVal.str s) = .error "AssertionError")
      ∧ (∀ b : Reference, refEqPy r (PyVal.ref b) = .ok (r.ref == b.ref)) := by
  intro r
  refine ⟨fun v => ?_, fun s => rfl, fun b => rfl⟩
  cases v <;> rfl

end Linkrot
